import Mathlib

/-!
# Verification of `cross_validation_simulations_auc.py`

A shallow embedding of the core of the repository
`tijnschouten/cross_validation_failure`: the synthetic data generator
`mk_data` and the trial runner `sample_and_cross_val_clf`.

Modelling conventions:

* The numpy `RandomState(random_state)` Mersenne-Twister generator is
  modelled as an abstract infinite stream `σ : ℕ → ℝ` of raw draws,
  consumed sequentially. `rng.random_integers(0, 1, size=n)` consumes
  stream positions `0 .. n-1` and interprets each raw draw through an
  abstract map `tl : ℝ → Bool` (`false` encodes class 0, `true` class 1);
  `rng.normal(size=(n, d))` then consumes positions `n .. n + n*d - 1`,
  row-major, as the raw Gaussian matrix.  The second component returned by
  `mk_data` is the number of stream positions that have been consumed at
  the moment the function returns or raises; this makes the draw order of
  the Python code (labels first, noise second) observable.
* `scipy.ndimage.gaussian_filter1d(noise, noise_corr, axis=0)` is an
  external library routine; it is modelled by an abstract parameter
  `gf : ℝ → (ℕ → ℕ → ℝ) → ℕ → ℕ → ℝ` (sigma, matrix ↦ smoothed matrix).
  No claim depends on the values it produces, only on when it is applied.
* Real numbers stand for Python floats.  IEEE NaN results of `np.mean` /
  `np.std` are modelled by `Option ℝ` with `none` as NaN (numpy
  propagates NaN through both reductions).  A division whose divisor is
  proven to be `0` is the model's image of numpy's non-finite `x / 0.0`.
* `sklearn`'s `cross_val_score`, `cross_val_predict`/`roc_auc_score` and
  the `LinearSVC_continuous` fit/score pipeline are external library
  calls; they are modelled as abstract oracles returning `Except Unit _`
  (`Except.error ()` = the call raised).  The control flow around them —
  the `try/except` fallback cascade, the data split, the group labels —
  is translated literally from the source.
* Python exceptions are `Except.error`; a matrix is a total function
  `ℕ → ℕ → ℝ` whose entries are meaningful below the stated bounds, and
  the `X[:train_size]` / `X[train_size:]` slices are `List.take` /
  `List.drop` on the list of rows.
-/

namespace CVSim

/-- A generated dataset: feature matrix (row `i`, column `j`) and binary
labels (`false` = class 0, `true` = class 1).  Mirrors the pair
`(X, y)` returned by `mk_data`. -/
structure Dataset where
  X : ℕ → ℕ → ℝ
  y : ℕ → Bool

/-- The two ways `mk_data` raises for a non-positive `dim`:
`rng.normal(size=(n_samples, dim))` raises `ValueError` for a negative
`dim`, and `4. / dim` raises `ZeroDivisionError` for `dim = 0`. -/
inductive MkErr where
  | negativeDim : MkErr
  | zeroDim : MkErr
deriving DecidableEq

/-- Mean of `v 0, …, v (n-1)` — the per-column mean used by numpy's
`.std(axis=0)` (population statistics). -/
noncomputable def colMean (n : ℕ) (v : ℕ → ℝ) : ℝ :=
  (∑ i ∈ Finset.range n, v i) / n

/-- Population variance of `v 0, …, v (n-1)`, as in `numpy.std` with
`ddof = 0`. -/
noncomputable def sampleVar (n : ℕ) (v : ℕ → ℝ) : ℝ :=
  (∑ i ∈ Finset.range n, (v i - colMean n v) ^ 2) / n

/-- Population standard deviation: `numpy.std` of `v 0, …, v (n-1)`. -/
noncomputable def sampleStd (n : ℕ) (v : ℕ → ℝ) : ℝ :=
  Real.sqrt (sampleVar n v)

/-- `y = rng.random_integers(0, 1, size=n_samples)`: label `i` is the
abstract interpretation `tl` of raw stream draw `σ i` (stream positions
`0 .. n_samples - 1` are consumed first, before any noise draw). -/
def mkY (tl : ℝ → Bool) (σ : ℕ → ℝ) : ℕ → Bool :=
  fun i => tl (σ i)

/-- `noise = rng.normal(size=(n_samples, dim))`: entry `(i, j)` is raw
stream draw number `n_samples + i * d + j` (row-major, after the
`n_samples` label draws). -/
def baseNoise (σ : ℕ → ℝ) (n d : ℕ) : ℕ → ℕ → ℝ :=
  fun i j => σ (n + i * d + j)

/-- `if not noise_corr is None and noise_corr > 0: noise =
ndimage.gaussian_filter1d(noise, noise_corr, axis=0)` — the smoothing is
applied only when `noise_corr` is present and strictly positive. -/
noncomputable def applySmooth (gf : ℝ → (ℕ → ℕ → ℝ) → ℕ → ℕ → ℝ) (nc : Option ℝ)
    (m : ℕ → ℕ → ℝ) : ℕ → ℕ → ℝ :=
  match nc with
  | none => m
  | some c => if 0 < c then gf c m else m

/-- `noise = noise / noise.std(axis=0)`: each column is divided by its
population standard deviation over the `n` samples. -/
noncomputable def normalizeCols (n : ℕ) (m : ℕ → ℕ → ℝ) : ℕ → ℕ → ℝ :=
  fun i j => m i j / sampleStd n (fun k => m k j)

/-- The feature matrix built by `mk_data` for a valid dimension:
`centers = 4. / dim * ones((2, dim)); centers[0] *= -1;
X = separability * centers[y] + noise` with the normalized (optionally
smoothed) noise. -/
noncomputable def mkX (σ : ℕ → ℝ) (gf : ℝ → (ℕ → ℕ → ℝ) → ℕ → ℕ → ℝ)
    (tl : ℝ → Bool) (n : ℕ) (sep : ℝ) (nc : Option ℝ) (dim : ℤ) :
    ℕ → ℕ → ℝ :=
  fun i j =>
    sep * (if mkY tl σ i then 4 / (dim : ℝ) else -(4 / (dim : ℝ))) +
      normalizeCols n (applySmooth gf nc (baseNoise σ n dim.toNat)) i j

/-- `mk_data(n_samples, random_state, separability, noise_corr, dim)`.

Returns the `(X, y)` pair (or the exception raised) together with the
number of raw stream positions consumed when the function returns:
the `n_samples` label draws always happen first; for `dim < 0` the
subsequent `rng.normal(size=(n_samples, dim))` raises `ValueError`
(no noise draw is consumed), for `dim = 0` the noise draw consumes
`n_samples * 0 = 0` positions and `4. / dim` then raises
`ZeroDivisionError`; otherwise the noise consumes `n_samples * dim`
further positions and the dataset is returned. -/
noncomputable def mk_data (σ : ℕ → ℝ) (gf : ℝ → (ℕ → ℕ → ℝ) → ℕ → ℕ → ℝ)
    (tl : ℝ → Bool) (n_samples : ℕ) (sep : ℝ) (nc : Option ℝ) (dim : ℤ) :
    Except MkErr Dataset × ℕ :=
  if dim < 0 then (Except.error MkErr.negativeDim, n_samples)
  else if dim = 0 then (Except.error MkErr.zeroDim, n_samples)
  else (Except.ok ⟨mkX σ gf tl n_samples sep nc dim, mkY tl σ⟩,
        n_samples + n_samples * dim.toNat)

/-- One row of the results dataframe, as built by the `dict(...)` at the
end of `sample_and_cross_val_clf`.  `score_error` and `score_sem` are
`Option ℝ` because `np.mean` / `np.std` of a score list containing
`np.nan` are NaN (`none`). -/
structure TrialResult where
  cv_name : String
  validation_score : ℝ
  train_size : ℕ
  dim : ℤ
  noise_corr : Option ℝ
  sep : ℝ
  score_error : Option ℝ
  score_sem : Option ℝ

/-- Collects a list of possibly-NaN floats into `some` list of floats
exactly when no entry is NaN — the premise under which numpy reductions
return a finite value. -/
def seqOpt : List (Option ℝ) → Option (List ℝ)
  | [] => some []
  | none :: _ => none
  | some x :: rest => (seqOpt rest).map (fun l => x :: l)

/-- `np.mean` of a float list: NaN (`none`) if the list is empty or
contains NaN, the arithmetic mean otherwise. -/
noncomputable def nmean (xs : List (Option ℝ)) : Option ℝ :=
  match seqOpt xs with
  | none => none
  | some l =>
      if l.length = 0 then none else some (l.sum / l.length)

/-- `np.std` of a float list (population std, `ddof = 0`): NaN (`none`)
if the list is empty or contains NaN. -/
noncomputable def nstd (xs : List (Option ℝ)) : Option ℝ :=
  match seqOpt xs with
  | none => none
  | some l =>
      if l.length = 0 then none
      else some (Real.sqrt
        (((l.map (fun x => (x - l.sum / l.length) ^ 2)).sum) / l.length))

/-- The `dict(...)` appended to `scores` for one strategy:
`score_error = np.mean(cv_scores) - validation_score` and
`score_sem = np.std(cv_scores) / np.sqrt(len(cv_scores))` (NaN
propagates through both). -/
noncomputable def scoreLine (name : String) (v : ℝ) (ts : ℕ) (dim : ℤ)
    (nc : Option ℝ) (sep : ℝ) (cv : List (Option ℝ)) : TrialResult :=
  { cv_name := name
    validation_score := v
    train_size := ts
    dim := dim
    noise_corr := nc
    sep := sep
    score_error := (nmean cv).map (fun m => m - v)
    score_sem := (nstd cv).map (fun s => s / Real.sqrt (cv.length : ℝ)) }

/-- The `try/except` cascade around `cross_val_score` for one strategy:
on success the fold scores are used as is; on failure, the
`'10 repeated 10-fold'` strategy falls back to the single pooled AUC
`roc_auc_score(y_train, cross_val_predict(clf, X_train, y_train,
groups=groups, cv=10))` (a one-element list), itself replaced by
`[np.nan]` if it raises too; the `'50 splits'` strategy goes straight to
`[np.nan]`.  `cvs` is the outcome of `cross_val_score`, `pooled` the
outcome of the pooled fallback. -/
def stratScores (name : String) (cvs : Except Unit (List ℝ))
    (pooled : Except Unit ℝ) : List (Option ℝ) :=
  match cvs with
  | Except.ok s => s.map some
  | Except.error _ =>
      if name = "10 repeated 10-fold" then
        match pooled with
        | Except.ok a => [some a]
        | Except.error _ => [none]
      else [none]

/-- `groups = np.arange(train_size) // (train_size // 10)`.  Both `//`
are floor divisions on non-negative integers, so `ℕ` division; numpy's
integer division by zero returns `0` (with a warning), which `ℕ`
division also does, so `train_size < 10` is represented faithfully. -/
def groups (ts : ℕ) : ℕ → ℕ :=
  fun i => i / (ts / 10)

/-- The rows of an `n × d` feature matrix as a list, so that the Python
slices `X[:train_size]` / `X[train_size:]` become `List.take` /
`List.drop`. -/
def matRows (n : ℕ) (X : ℕ → ℕ → ℝ) : List (ℕ → ℝ) :=
  (List.range n).map X

/-- The label vector as a list of `n` booleans, for the slices
`y[:train_size]` / `y[train_size:]`. -/
def labelList (n : ℕ) (y : ℕ → Bool) : List Bool :=
  (List.range n).map y

/-- `X_train = X[:train_size]` for a dataset of `train_size + 10000`
rows. -/
def trainX (ts : ℕ) (ds : Dataset) : List (ℕ → ℝ) :=
  (matRows (ts + 10000) ds.X).take ts

/-- `y_train = y[:train_size]`. -/
def trainY (ts : ℕ) (ds : Dataset) : List Bool :=
  (labelList (ts + 10000) ds.y).take ts

/-- `X_test = X[train_size:]`. -/
def testX (ts : ℕ) (ds : Dataset) : List (ℕ → ℝ) :=
  (matRows (ts + 10000) ds.X).drop ts

/-- `y_test = y[train_size:]`. -/
def testY (ts : ℕ) (ds : Dataset) : List Bool :=
  (labelList (ts + 10000) ds.y).drop ts

/-- `sample_and_cross_val_clf(train_size, noise_corr, dim, sep,
random_state)`.

The sklearn calls are abstract oracles: `fitScore X_train y_train X_test
y_test` is `roc_auc_score(y_test, clf.fit(X_train, y_train)
.predict(X_test))` (with `clf = LinearSVC_continuous`, whose `predict`
is the continuous `decision_function`); `cvRun name X_train y_train
groups` is `cross_val_score(clf, X_train, y_train, groups=groups,
scoring='roc_auc', cv=cv)` for the strategy named `name`
(`RepeatedKFold(n_splits=10, n_repeats=10)` resp.
`GroupShuffleSplit(n_splits=50)`); `pooled X_train y_train groups` is
`roc_auc_score(y_train, cross_val_predict(clf, X_train, y_train,
groups=groups, cv=10))`.  An `Except.error ()` oracle outcome is the
call raising.

Note which calls are unguarded: `mk_data` and `fitScore` raise out of
the whole function; only the `cvRun` / `pooled` stage is wrapped in
`try/except`. -/
noncomputable def sample_and_cross_val_clf (σ : ℕ → ℝ)
    (gf : ℝ → (ℕ → ℕ → ℝ) → ℕ → ℕ → ℝ) (tl : ℝ → Bool)
    (fitScore : List (ℕ → ℝ) → List Bool → List (ℕ → ℝ) → List Bool →
      Except Unit ℝ)
    (cvRun : String → List (ℕ → ℝ) → List Bool → (ℕ → ℕ) →
      Except Unit (List ℝ))
    (pooled : List (ℕ → ℝ) → List Bool → (ℕ → ℕ) → Except Unit ℝ)
    (train_size : ℕ) (noise_corr : Option ℝ) (dim : ℤ) (sep : ℝ) :
    Except Unit (List TrialResult) :=
  match (mk_data σ gf tl (train_size + 10000) sep noise_corr dim).1 with
  | Except.error _ => Except.error ()
  | Except.ok ds =>
      let X_train := trainX train_size ds
      let y_train := trainY train_size ds
      let X_test := testX train_size ds
      let y_test := testY train_size ds
      match fitScore X_train y_train X_test y_test with
      | Except.error _ => Except.error ()
      | Except.ok validation_score =>
          let gr := groups train_size
          let line := fun (name : String) =>
            scoreLine name validation_score train_size dim noise_corr sep
              (stratScores name (cvRun name X_train y_train gr)
                (pooled X_train y_train gr))
          Except.ok [line "10 repeated 10-fold", line "50 splits"]

/-! ## Helper lemmas about the population statistics -/

lemma colMean_add (n : ℕ) (a b : ℕ → ℝ) :
    colMean n (fun i => a i + b i) = colMean n a + colMean n b := by
  unfold colMean
  rw [Finset.sum_add_distrib, add_div]

lemma sampleVar_nonneg (n : ℕ) (v : ℕ → ℝ) : 0 ≤ sampleVar n v :=
  div_nonneg (Finset.sum_nonneg fun _ _ => sq_nonneg _) (Nat.cast_nonneg n)

lemma sampleStd_nonneg (n : ℕ) (v : ℕ → ℝ) : 0 ≤ sampleStd n v :=
  Real.sqrt_nonneg _

/-- Triangle inequality for the root-sum-of-squares. -/
lemma sqrt_sum_sq_add_le (n : ℕ) (f g : ℕ → ℝ) :
    Real.sqrt (∑ i ∈ Finset.range n, (f i + g i) ^ 2) ≤
      Real.sqrt (∑ i ∈ Finset.range n, f i ^ 2) +
        Real.sqrt (∑ i ∈ Finset.range n, g i ^ 2) := by
  have hA0 : 0 ≤ ∑ i ∈ Finset.range n, f i ^ 2 :=
    Finset.sum_nonneg fun _ _ => sq_nonneg _
  have hB0 : 0 ≤ ∑ i ∈ Finset.range n, g i ^ 2 :=
    Finset.sum_nonneg fun _ _ => sq_nonneg _
  have hcross : ∑ i ∈ Finset.range n, f i * g i ≤
      Real.sqrt (∑ i ∈ Finset.range n, f i ^ 2) *
        Real.sqrt (∑ i ∈ Finset.range n, g i ^ 2) := by
    have h1 := Finset.sum_mul_sq_le_sq_mul_sq (Finset.range n) f g
    have h4 : Real.sqrt ((∑ i ∈ Finset.range n, f i * g i) ^ 2) ≤
        Real.sqrt ((∑ i ∈ Finset.range n, f i ^ 2) *
          ∑ i ∈ Finset.range n, g i ^ 2) := Real.sqrt_le_sqrt h1
    rw [Real.sqrt_sq_eq_abs, Real.sqrt_mul hA0] at h4
    exact le_trans (le_abs_self _) h4
  have hexp : ∑ i ∈ Finset.range n, (f i + g i) ^ 2 =
      ∑ i ∈ Finset.range n, f i ^ 2 +
        2 * ∑ i ∈ Finset.range n, f i * g i +
        ∑ i ∈ Finset.range n, g i ^ 2 := by
    have h1 : ∀ i ∈ Finset.range n,
        (f i + g i) ^ 2 = f i ^ 2 + 2 * (f i * g i) + g i ^ 2 :=
      fun i _ => by ring
    rw [Finset.sum_congr rfl h1, Finset.sum_add_distrib,
      Finset.sum_add_distrib, ← Finset.mul_sum]
  have hle : ∑ i ∈ Finset.range n, (f i + g i) ^ 2 ≤
      (Real.sqrt (∑ i ∈ Finset.range n, f i ^ 2) +
        Real.sqrt (∑ i ∈ Finset.range n, g i ^ 2)) ^ 2 := by
    rw [hexp, add_sq, Real.sq_sqrt hA0, Real.sq_sqrt hB0]
    linarith
  calc Real.sqrt (∑ i ∈ Finset.range n, (f i + g i) ^ 2) ≤
      Real.sqrt ((Real.sqrt (∑ i ∈ Finset.range n, f i ^ 2) +
        Real.sqrt (∑ i ∈ Finset.range n, g i ^ 2)) ^ 2) :=
        Real.sqrt_le_sqrt hle
    _ = _ := Real.sqrt_sq (by positivity)

lemma sampleStd_eq_div (n : ℕ) (v : ℕ → ℝ) :
    sampleStd n v =
      Real.sqrt (∑ i ∈ Finset.range n, (v i - colMean n v) ^ 2) /
        Real.sqrt n := by
  unfold sampleStd sampleVar
  rw [Real.sqrt_div (Finset.sum_nonneg fun _ _ => sq_nonneg _)]

/-- The population standard deviation is subadditive (it is `1/√n` times
the Euclidean norm of the centered vector). -/
lemma sampleStd_add_le (n : ℕ) (a b : ℕ → ℝ) :
    sampleStd n (fun i => a i + b i) ≤ sampleStd n a + sampleStd n b := by
  rw [sampleStd_eq_div, sampleStd_eq_div, sampleStd_eq_div,
    div_add_div_same]
  apply div_le_div_of_nonneg_right ?_ (Real.sqrt_nonneg (n : ℝ))
  have hdev : ∀ i ∈ Finset.range n,
      ((fun i => a i + b i) i - colMean n (fun i => a i + b i)) ^ 2 =
        ((a i - colMean n a) + (b i - colMean n b)) ^ 2 := by
    intro i _
    rw [colMean_add]
    ring
  rw [Finset.sum_congr rfl hdev]
  exact sqrt_sum_sq_add_le n (fun i => a i - colMean n a)
    (fun i => b i - colMean n b)

lemma sampleStd_smul (n : ℕ) (c : ℝ) (v : ℕ → ℝ) :
    sampleStd n (fun i => c * v i) = |c| * sampleStd n v := by
  unfold sampleStd sampleVar
  have hcm : colMean n (fun i => c * v i) = c * colMean n v := by
    unfold colMean
    rw [← Finset.mul_sum, mul_div_assoc]
  have h1 : ∀ i ∈ Finset.range n,
      ((fun i => c * v i) i - colMean n (fun i => c * v i)) ^ 2 =
        c ^ 2 * (v i - colMean n v) ^ 2 := by
    intro i _
    rw [hcm]
    ring
  rw [Finset.sum_congr rfl h1, ← Finset.mul_sum, mul_div_assoc,
    Real.sqrt_mul (sq_nonneg c), Real.sqrt_sq_eq_abs]

lemma sampleStd_neg (n : ℕ) (a : ℕ → ℝ) :
    sampleStd n (fun i => -(a i)) = sampleStd n a := by
  have h : (fun i => -(a i)) = fun i => (-1 : ℝ) * a i := by
    funext i
    ring
  rw [h, sampleStd_smul]
  simp

/-- Reverse triangle inequality for the population standard deviation:
adding a perturbation `a` moves the standard deviation of `b` by at most
the standard deviation of `a`. -/
lemma abs_sampleStd_add_sub_le (n : ℕ) (a b : ℕ → ℝ) :
    |sampleStd n (fun i => a i + b i) - sampleStd n b| ≤ sampleStd n a := by
  rw [abs_sub_le_iff]
  refine ⟨by have h1 := sampleStd_add_le n a b; linarith, ?_⟩
  have h3 := sampleStd_add_le n (fun i => a i + b i) (fun i => -(a i))
  have h4 : (fun i => (fun i => a i + b i) i + (fun i => -(a i)) i) =
      fun i => b i := by
    funext i
    simp
  rw [h4, sampleStd_neg] at h3
  simp only [show (fun i => b i) = b from rfl] at h3
  linarith

lemma sampleStd_div_self (n : ℕ) (v : ℕ → ℝ) (h : sampleStd n v ≠ 0) :
    sampleStd n (fun i => v i / sampleStd n v) = 1 := by
  have h1 : (fun i => v i / sampleStd n v) =
      fun i => (sampleStd n v)⁻¹ * v i := by
    funext i
    rw [div_eq_inv_mul]
  rw [h1, sampleStd_smul, abs_inv, abs_of_nonneg (sampleStd_nonneg n v),
    inv_mul_cancel₀ h]

lemma sum_sq_dev_le (n : ℕ) (v : ℕ → ℝ) :
    ∑ i ∈ Finset.range n, (v i - colMean n v) ^ 2 ≤
      ∑ i ∈ Finset.range n, v i ^ 2 := by
  rcases Nat.eq_zero_or_pos n with hn | hn
  · subst hn
    simp
  have hS : ∑ i ∈ Finset.range n, v i = n * colMean n v := by
    unfold colMean
    field_simp
  have hexp : ∑ i ∈ Finset.range n, (v i - colMean n v) ^ 2 =
      ∑ i ∈ Finset.range n, v i ^ 2 -
        2 * colMean n v * ∑ i ∈ Finset.range n, v i +
        n * colMean n v ^ 2 := by
    have h1 : ∀ i ∈ Finset.range n,
        (v i - colMean n v) ^ 2 =
          v i ^ 2 - 2 * colMean n v * v i + colMean n v ^ 2 :=
      fun i _ => by ring
    rw [Finset.sum_congr rfl h1, Finset.sum_add_distrib,
      Finset.sum_sub_distrib, ← Finset.mul_sum, Finset.sum_const,
      Finset.card_range, nsmul_eq_mul]
  rw [hexp, hS]
  have h2 : 0 ≤ (n : ℝ) * colMean n v ^ 2 := by positivity
  nlinarith

/-- A vector with entries bounded by `M` in absolute value has
population standard deviation at most `M`. -/
lemma sampleStd_le_bound (n : ℕ) (v : ℕ → ℝ) (M : ℝ) (hM : 0 ≤ M)
    (h : ∀ i, i < n → |v i| ≤ M) : sampleStd n v ≤ M := by
  rcases Nat.eq_zero_or_pos n with hn | hn
  · subst hn
    unfold sampleStd sampleVar
    simpa using hM
  unfold sampleStd sampleVar
  have h1 : ∑ i ∈ Finset.range n, (v i - colMean n v) ^ 2 ≤ n * M ^ 2 := by
    calc ∑ i ∈ Finset.range n, (v i - colMean n v) ^ 2 ≤
        ∑ i ∈ Finset.range n, v i ^ 2 := sum_sq_dev_le n v
      _ ≤ ∑ _i ∈ Finset.range n, M ^ 2 := by
          refine Finset.sum_le_sum fun i hi => ?_
          have hv := h i (Finset.mem_range.mp hi)
          have := abs_le.mp hv
          exact sq_le_sq' (by linarith) (by linarith)
      _ = n * M ^ 2 := by
          rw [Finset.sum_const, Finset.card_range, nsmul_eq_mul]
  have h2 : (∑ i ∈ Finset.range n, (v i - colMean n v) ^ 2) / n ≤ M ^ 2 := by
    rw [div_le_iff₀ (by positivity : (0 : ℝ) < n)]
    linarith
  calc Real.sqrt ((∑ i ∈ Finset.range n, (v i - colMean n v) ^ 2) / n) ≤
      Real.sqrt (M ^ 2) := Real.sqrt_le_sqrt h2
    _ = M := Real.sqrt_sq hM

/-- For a strictly positive dimension `mk_data` returns the dataset
`(mkX, mkY)` and has consumed the `n` label draws and the `n * dim`
noise draws. -/
lemma mk_data_ok (σ : ℕ → ℝ) (gf : ℝ → (ℕ → ℕ → ℝ) → ℕ → ℕ → ℝ)
    (tl : ℝ → Bool) (n : ℕ) (sep : ℝ) (nc : Option ℝ) {dim : ℤ}
    (h : 0 < dim) :
    mk_data σ gf tl n sep nc dim =
      (Except.ok ⟨mkX σ gf tl n sep nc dim, mkY tl σ⟩,
        n + n * dim.toNat) := by
  unfold mk_data
  rw [if_neg (by omega), if_neg (by omega)]

/-! ## Claim theorems -/

/-- C2, counterexample: for `train_size = 35` the code's
`np.arange(35) // (35 // 10)` produces twelve distinct group labels
(`0 .. 11`), not ten, so the claim's "exactly 10 distinct group labels
occur" fails for this `train_size`. -/
theorem groups_not_ten_blocks_at_35 :
    ((Finset.range 35).image (groups 35)).card = 12 ∧
      ((Finset.range 35).image (groups 35)).card ≠ 10 := by
  constructor
  · decide
  · decide

/-- C2, amended: for every `train_size` that is a positive multiple of
10, say `train_size = 10 * k` with `1 ≤ k`, the group label of sample
`i` is `i / k`, exactly the ten labels `0 .. 9` occur, and label `j`
covers precisely the `k` consecutive samples `j * k ≤ i < (j + 1) * k`. -/
theorem groups_ten_blocks_of_multiple_of_ten (k : ℕ) (hk : 1 ≤ k) :
    (∀ i, groups (10 * k) i = i / k) ∧
      (Finset.range (10 * k)).image (groups (10 * k)) = Finset.range 10 ∧
      ∀ j, j < 10 →
        (Finset.range (10 * k)).filter (fun i => groups (10 * k) i = j) =
          Finset.Ico (j * k) ((j + 1) * k) := by
  have hk0 : 0 < k := hk
  have hdiv : 10 * k / 10 = k := Nat.mul_div_cancel_left k (by norm_num)
  have hg : ∀ i, groups (10 * k) i = i / k := by
    intro i
    unfold groups
    rw [hdiv]
  refine ⟨hg, ?_, ?_⟩
  · ext m
    simp only [Finset.mem_image, Finset.mem_range]
    constructor
    · rintro ⟨i, hi, rfl⟩
      rw [hg]
      exact (Nat.div_lt_iff_lt_mul hk0).mpr hi
    · intro hm
      refine ⟨m * k, mul_lt_mul_of_pos_right hm hk0, ?_⟩
      rw [hg, Nat.mul_div_cancel _ hk0]
  · intro j hj
    ext i
    simp only [Finset.mem_filter, Finset.mem_range, Finset.mem_Ico, hg]
    constructor
    · rintro ⟨hi, rfl⟩
      refine ⟨Nat.div_mul_le_self i k, ?_⟩
      exact (Nat.div_lt_iff_lt_mul hk0).mp (Nat.lt_succ_self (i / k))
    · rintro ⟨h1, h2⟩
      have h3 : i / k < j + 1 := (Nat.div_lt_iff_lt_mul hk0).mpr h2
      have h4 : j ≤ i / k := (Nat.le_div_iff_mul_le hk0).mpr h1
      have h5 : i < 10 * k := by
        calc i < (j + 1) * k := h2
          _ ≤ 10 * k := Nat.mul_le_mul_right k (by omega)
      exact ⟨h5, by omega⟩

/-- C2, witness: the amended statement instantiated at `k = 3`
(`train_size = 30`, the smallest size in the driver's grid): labels
`0 .. 9` occur and label 2 covers samples `6 .. 8`. -/
theorem groups_ten_blocks_of_multiple_of_ten_witness :
    (Finset.range 30).image (groups 30) = Finset.range 10 ∧
      (Finset.range 30).filter (fun i => groups 30 i = 2) =
        Finset.Ico 6 9 := by
  have h := groups_ten_blocks_of_multiple_of_ten 3 (by norm_num)
  exact ⟨h.2.1, h.2.2 2 (by norm_num)⟩

/-- C3: the fallback cascade of the `try/except` blocks.  When
`cross_val_score` raises for the `'10 repeated 10-fold'` strategy, the
scores become the one-element list holding the pooled out-of-fold AUC if
that fallback succeeds, and the one-element NaN list if the fallback
raises too; when `cross_val_score` raises for the `'50 splits'` strategy
the scores become the one-element NaN list directly, whatever the pooled
fallback would have produced (it is never attempted). -/
theorem fallback_policy :
    (∀ a : ℝ,
      stratScores "10 repeated 10-fold" (Except.error ()) (Except.ok a) =
        [some a]) ∧
    stratScores "10 repeated 10-fold" (Except.error ()) (Except.error ()) =
      [none] ∧
    ∀ p : Except Unit ℝ,
      stratScores "50 splits" (Except.error ()) p = [none] := by
  refine ⟨fun a => rfl, rfl, fun p => ?_⟩
  cases p <;> rfl

/-- C4, counterexample: `mk_data` called with the invalid dimension
`dim = -1` and `n_samples = 5` does raise (`rng.normal` rejects the
negative shape), but only after the five label draws have been consumed
from the seeded source — the consumed-draw count at the failure is `5`,
not `0`, refuting "raises before performing any pseudo-random draws". -/
theorem mk_data_consumes_draws_before_failure :
    (mk_data (fun _ => (0 : ℝ)) (fun _ m => m) (fun _ => false) 5 1 none
      (-1)).1 = Except.error MkErr.negativeDim ∧
    (mk_data (fun _ => (0 : ℝ)) (fun _ m => m) (fun _ => false) 5 1 none
      (-1)).2 = 5 ∧
    (mk_data (fun _ => (0 : ℝ)) (fun _ m => m) (fun _ => false) 5 1 none
      (-1)).2 ≠ 0 := by
  refine ⟨rfl, rfl, by norm_num [mk_data]⟩

/-- C4, amended: for every non-positive dimension `mk_data` does fail
(with `ValueError` from `rng.normal` when `dim < 0`, with
`ZeroDivisionError` from `4. / dim` when `dim = 0`), but only after the
`n_samples` label draws have been consumed from the seeded source; it
never fails before the random label draws. -/
theorem mk_data_fails_after_label_draws (σ : ℕ → ℝ)
    (gf : ℝ → (ℕ → ℕ → ℝ) → ℕ → ℕ → ℝ) (tl : ℝ → Bool) (n : ℕ) (sep : ℝ)
    (nc : Option ℝ) (dim : ℤ) (hdim : dim ≤ 0) :
    (mk_data σ gf tl n sep nc dim).1 =
      Except.error
        (if dim < 0 then MkErr.negativeDim else MkErr.zeroDim) ∧
    (mk_data σ gf tl n sep nc dim).2 = n := by
  unfold mk_data
  rcases lt_or_eq_of_le hdim with h | h
  · rw [if_pos h, if_pos h]
    exact ⟨rfl, rfl⟩
  · rw [if_neg (by omega), if_pos (by omega), if_neg (by omega)]
    exact ⟨rfl, rfl⟩

/-- C4, witness: the amended statement instantiated at `dim = 0`,
`n_samples = 5`. -/
theorem mk_data_fails_after_label_draws_witness :
    (mk_data (fun _ => (0 : ℝ)) (fun _ m => m) (fun _ => false) 5 1 none
      0).1 = Except.error
        (if (0 : ℤ) < 0 then MkErr.negativeDim else MkErr.zeroDim) ∧
    (mk_data (fun _ => (0 : ℝ)) (fun _ m => m) (fun _ => false) 5 1 none
      0).2 = 5 :=
  mk_data_fails_after_label_draws (fun _ => (0 : ℝ)) (fun _ m => m)
    (fun _ => false) 5 1 none 0 (by norm_num)

/-- C9: two-run noninterference of the labels.  For a fixed stream
(seed) and `n_samples`, the label vector of the dataset returned by
`mk_data` is the same across any two choices of `separability`,
`noise_correlation` and (valid) `dimension`: the labels are drawn from
stream positions `0 .. n_samples - 1`, before any noise draw, so the
three other parameters cannot influence them. -/
theorem labels_noninterference (σ : ℕ → ℝ)
    (gf : ℝ → (ℕ → ℕ → ℝ) → ℕ → ℕ → ℝ) (tl : ℝ → Bool) (n : ℕ)
    (sep₁ sep₂ : ℝ) (nc₁ nc₂ : Option ℝ) (dim₁ dim₂ : ℤ)
    (h₁ : 0 < dim₁) (h₂ : 0 < dim₂) :
    ((mk_data σ gf tl n sep₁ nc₁ dim₁).1).map Dataset.y =
      ((mk_data σ gf tl n sep₂ nc₂ dim₂).1).map Dataset.y := by
  rw [mk_data_ok σ gf tl n sep₁ nc₁ h₁, mk_data_ok σ gf tl n sep₂ nc₂ h₂]
  rfl

/-- C9, witness: two concrete runs differing in all of `separability`
(`1` vs `2`), `noise_correlation` (`none` vs `5`) and `dimension`
(`1` vs `2`) return identical label vectors. -/
theorem labels_noninterference_witness :
    ((mk_data (fun k => (k : ℝ)) (fun _ m => m) (fun r => r = 0) 3 1 none
      1).1).map Dataset.y =
    ((mk_data (fun k => (k : ℝ)) (fun _ m => m) (fun r => r = 0) 3 2
      (some 5) 2).1).map Dataset.y :=
  labels_noninterference (fun k => (k : ℝ)) (fun _ m => m) (fun r => r = 0)
    3 1 2 none (some 5) 1 2 (by norm_num) (by norm_num)

/-- C10: with `n_samples = 1` every column of the (possibly smoothed)
noise matrix has population standard deviation `0` — a single sample has
no spread — so `noise / noise.std(axis=0)` divides every entry by zero:
the noise part of every feature entry produced by `mk_data` is the
division of the raw entry by the divisor `0` (numpy turns `x / 0.0` into
a non-finite `inf`/`nan` entry). -/
theorem single_sample_zero_std_division (σ : ℕ → ℝ)
    (gf : ℝ → (ℕ → ℕ → ℝ) → ℕ → ℕ → ℝ) (tl : ℝ → Bool) (sep : ℝ)
    (nc : Option ℝ) (dim : ℤ) (i j : ℕ) :
    sampleStd 1 (fun k => applySmooth gf nc (baseNoise σ 1 dim.toNat) k j)
      = 0 ∧
    normalizeCols 1 (applySmooth gf nc (baseNoise σ 1 dim.toNat)) i j =
      applySmooth gf nc (baseNoise σ 1 dim.toNat) i j / 0 ∧
    mkX σ gf tl 1 sep nc dim i j =
      sep * (if mkY tl σ i then 4 / (dim : ℝ) else -(4 / (dim : ℝ))) +
        applySmooth gf nc (baseNoise σ 1 dim.toNat) i j / 0 := by
  have hstd : ∀ v : ℕ → ℝ, sampleStd 1 v = 0 := by
    intro v
    unfold sampleStd sampleVar colMean
    simp
  refine ⟨hstd _, ?_, ?_⟩
  · unfold normalizeCols
    rw [hstd]
  · unfold mkX normalizeCols
    rw [hstd]

/-- C5: the deterministic split of the generated dataset.  The row list
of the `(train_size + 10000)`-row dataset has exactly that length; the
training slice `X[:train_size]`, `y[:train_size]` is exactly the first
`train_size` rows (sample `i` of the training subset is dataset row
`i`), the validation slice `X[train_size:]`, `y[train_size:]` is exactly
the remaining `10000` rows (sample `i` of the validation subset is
dataset row `train_size + i`), the sizes sum to `train_size + 10000`,
and the two sets of dataset row indices are disjoint and together cover
the whole dataset. -/
theorem train_test_split_disjoint (ts : ℕ) (ds : Dataset) :
    (matRows (ts + 10000) ds.X).length = ts + 10000 ∧
    (trainX ts ds).length = ts ∧
    (testX ts ds).length = 10000 ∧
    (trainY ts ds).length = ts ∧
    (testY ts ds).length = 10000 ∧
    (trainX ts ds).length + (testX ts ds).length = ts + 10000 ∧
    (∀ i, i < ts → (trainX ts ds)[i]? = some (ds.X i)) ∧
    (∀ i, i < 10000 → (testX ts ds)[i]? = some (ds.X (ts + i))) ∧
    (∀ i, i < ts → (trainY ts ds)[i]? = some (ds.y i)) ∧
    (∀ i, i < 10000 → (testY ts ds)[i]? = some (ds.y (ts + i))) ∧
    Disjoint (Finset.range ts) (Finset.Ico ts (ts + 10000)) ∧
    Finset.range ts ∪ Finset.Ico ts (ts + 10000) =
      Finset.range (ts + 10000) := by
  have hlen : (matRows (ts + 10000) ds.X).length = ts + 10000 := by
    simp [matRows]
  have hlenY : (labelList (ts + 10000) ds.y).length = ts + 10000 := by
    simp [labelList]
  refine ⟨hlen, ?_, ?_, ?_, ?_, ?_, ?_, ?_, ?_, ?_, ?_, ?_⟩
  · simp [trainX, matRows]
  · simp [testX, matRows]
  · simp [trainY, labelList]
  · simp [testY, labelList]
  · simp [trainX, testX, matRows]
  · intro i hi
    rw [trainX, List.getElem?_take]
    simp [matRows, hi, List.getElem?_range, Nat.lt_add_right 10000 hi]
  · intro i hi
    rw [testX, List.getElem?_drop]
    simp [matRows, List.getElem?_range, Nat.add_lt_add_left hi ts]
  · intro i hi
    rw [trainY, List.getElem?_take]
    simp [labelList, hi, List.getElem?_range, Nat.lt_add_right 10000 hi]
  · intro i hi
    rw [testY, List.getElem?_drop]
    simp [labelList, List.getElem?_range, Nat.add_lt_add_left hi ts]
  · rw [Finset.disjoint_left]
    intro a ha hb
    rw [Finset.mem_range] at ha
    rw [Finset.mem_Ico] at hb
    omega
  · rw [Finset.range_eq_Ico,
      Finset.Ico_union_Ico_eq_Ico (Nat.zero_le ts)
        (Nat.le_add_right ts 10000)]

/-- C5, witness: the split at `train_size = 30` on a concrete dataset:
lengths 30 and 10000, sample 0 of the training subset is dataset row 0,
sample 0 of the validation subset is dataset row 30, and the two index
ranges are disjoint. -/
theorem train_test_split_disjoint_witness :
    (trainX 30 ⟨fun i _ => (i : ℝ), fun _ => false⟩).length = 30 ∧
    (testX 30 ⟨fun i _ => (i : ℝ), fun _ => false⟩).length = 10000 ∧
    (trainX 30 ⟨fun i _ => (i : ℝ), fun _ => false⟩)[0]? =
      some ((⟨fun i _ => (i : ℝ), fun _ => false⟩ : Dataset).X 0) ∧
    (testX 30 ⟨fun i _ => (i : ℝ), fun _ => false⟩)[0]? =
      some ((⟨fun i _ => (i : ℝ), fun _ => false⟩ : Dataset).X (30 + 0)) ∧
    Disjoint (Finset.range 30) (Finset.Ico 30 (30 + 10000)) := by
  obtain ⟨h1, h2, h3, h4, h5, h6, h7, h8, h9, h10, h11, h12⟩ :=
    train_test_split_disjoint 30 ⟨fun i _ => (i : ℝ), fun _ => false⟩
  exact ⟨h2, h3, h7 0 (by norm_num), h8 0 (by norm_num), h11⟩

/-- C6: for every valid configuration (`0 < dim`) the dataset returned
by `mk_data` has feature matrix `mkX` and labels `mkY`, where entry
`(i, j)` of `mkX` is `separability` times the class-center entry of
sample `i` (magnitude `4 / dim`, sign `-` for class 0 and `+` for class
1, the class selected by the sample's label) plus the column-normalized
noise (the smoothed base draw divided by its column's population
standard deviation); and when `noise_correlation` is `None` or `0` the
Gaussian smoothing step is skipped, so the noise fed to the
normalization is the unsmoothed base draw itself. -/
theorem mk_data_feature_formula (σ : ℕ → ℝ)
    (gf : ℝ → (ℕ → ℕ → ℝ) → ℕ → ℕ → ℝ) (tl : ℝ → Bool) (n : ℕ) (sep : ℝ)
    (nc : Option ℝ) (dim : ℤ) (hdim : 0 < dim) :
    (mk_data σ gf tl n sep nc dim).1 =
      Except.ok ⟨mkX σ gf tl n sep nc dim, mkY tl σ⟩ ∧
    mkX σ gf tl n sep nc dim = (fun i j =>
      sep * (if tl (σ i) then 4 / (dim : ℝ) else -(4 / (dim : ℝ))) +
        applySmooth gf nc (baseNoise σ n dim.toNat) i j /
          sampleStd n
            (fun k => applySmooth gf nc (baseNoise σ n dim.toNat) k j)) ∧
    applySmooth gf none (baseNoise σ n dim.toNat) =
      baseNoise σ n dim.toNat ∧
    applySmooth gf (some 0) (baseNoise σ n dim.toNat) =
      baseNoise σ n dim.toNat := by
  refine ⟨by rw [mk_data_ok σ gf tl n sep nc hdim], rfl, rfl, ?_⟩
  simp [applySmooth]

/-- C6, witness: the formula instantiated at a concrete configuration
(`n = 2`, `sep = 1`, `nc = none`, `dim = 1`). -/
theorem mk_data_feature_formula_witness :
    (mk_data (fun k => (k : ℝ)) (fun _ m => m) (fun r => r = 0) 2 1 none
      1).1 = Except.ok
        ⟨mkX (fun k => (k : ℝ)) (fun _ m => m) (fun r => r = 0) 2 1 none 1,
          mkY (fun r => r = 0) (fun k => (k : ℝ))⟩ ∧
    applySmooth (fun _ m => m) none
      (baseNoise (fun k => (k : ℝ)) 2 (1 : ℤ).toNat) =
      baseNoise (fun k => (k : ℝ)) 2 (1 : ℤ).toNat := by
  obtain ⟨h1, _, h3, _⟩ := mk_data_feature_formula (fun k => (k : ℝ))
    (fun _ m => m) (fun r => r = 0) 2 1 none 1 (by norm_num)
  exact ⟨h1, h3⟩

/-- C1, counterexample: a trial CAN raise.  With the invalid dimension
`dim = -1` (and otherwise ordinary arguments, `train_size = 30`), the
unguarded `mk_data` call raises `ValueError` out of
`sample_and_cross_val_clf` — the trial aborts instead of returning a
row with undefined scores, refuting "a trial run never raises". -/
theorem trial_raises_on_negative_dim :
    sample_and_cross_val_clf (fun _ => (0 : ℝ)) (fun _ m => m)
      (fun _ => false) (fun _ _ _ _ => Except.ok 0)
      (fun _ _ _ _ => Except.ok []) (fun _ _ _ => Except.ok 0)
      30 none (-1) 1 = Except.error () := rfl

/-- C1, amended: only the cross-validation estimation stage of a trial
never raises.  Whenever the dataset generation succeeds (`0 < dim`) and
the unguarded ground-truth fit/score call succeeds, the trial returns
normally with exactly two result rows for EVERY behaviour of the two
cross-validation oracles (including both raising) — CV failures are
converted to undefined scores.  But a trial as a whole can still raise,
through `mk_data` or the ground-truth fit/score, which sit outside any
`try/except` (see the counterexample). -/
theorem cv_stage_never_raises (σ : ℕ → ℝ)
    (gf : ℝ → (ℕ → ℕ → ℝ) → ℕ → ℕ → ℝ) (tl : ℝ → Bool)
    (fitScore : List (ℕ → ℝ) → List Bool → List (ℕ → ℝ) → List Bool →
      Except Unit ℝ)
    (cvRun : String → List (ℕ → ℝ) → List Bool → (ℕ → ℕ) →
      Except Unit (List ℝ))
    (pooled : List (ℕ → ℝ) → List Bool → (ℕ → ℕ) → Except Unit ℝ)
    (ts : ℕ) (nc : Option ℝ) (dim : ℤ) (sep : ℝ) (v : ℝ)
    (hdim : 0 < dim)
    (hfit : fitScore
        (trainX ts ⟨mkX σ gf tl (ts + 10000) sep nc dim, mkY tl σ⟩)
        (trainY ts ⟨mkX σ gf tl (ts + 10000) sep nc dim, mkY tl σ⟩)
        (testX ts ⟨mkX σ gf tl (ts + 10000) sep nc dim, mkY tl σ⟩)
        (testY ts ⟨mkX σ gf tl (ts + 10000) sep nc dim, mkY tl σ⟩) =
      Except.ok v) :
    (sample_and_cross_val_clf σ gf tl fitScore cvRun pooled ts nc dim
      sep).map List.length = Except.ok 2 := by
  unfold sample_and_cross_val_clf
  rw [mk_data_ok σ gf tl (ts + 10000) sep nc hdim]
  dsimp only
  rw [hfit]
  rfl

/-- C1, witness: the amended statement at a concrete instantiation
(`train_size = 0`, `dim = 1`, ground-truth score `0`, both CV oracles
raising): the trial returns two rows. -/
theorem cv_stage_never_raises_witness :
    (sample_and_cross_val_clf (fun _ => (0 : ℝ)) (fun _ m => m)
      (fun _ => false) (fun _ _ _ _ => Except.ok 0)
      (fun _ _ _ _ => Except.error ()) (fun _ _ _ => Except.error ())
      0 none 1 1).map List.length = Except.ok 2 :=
  cv_stage_never_raises (fun _ => (0 : ℝ)) (fun _ m => m) (fun _ => false)
    (fun _ _ _ _ => Except.ok 0) (fun _ _ _ _ => Except.error ())
    (fun _ _ _ => Except.error ()) 0 none 1 1 0 (by norm_num) rfl

/-- C7: unit standard deviation of the generated columns.  For a valid
configuration (`0 < dim`) and any column `j` whose (possibly smoothed)
base-noise column has nonzero spread, the normalized noise column has
population standard deviation exactly `1`, and the corresponding column
of the feature matrix `mkX` has population standard deviation within
`ε = 4 * |separability| / dim` of `1` (the class-center term moves each
entry by at most `4 * |separability| / dim`). -/
theorem feature_columns_unit_std (σ : ℕ → ℝ)
    (gf : ℝ → (ℕ → ℕ → ℝ) → ℕ → ℕ → ℝ) (tl : ℝ → Bool) (n : ℕ)
    (sep : ℝ) (nc : Option ℝ) (dim : ℤ) (j : ℕ) (hdim : 0 < dim)
    (hstd : sampleStd n
      (fun k => applySmooth gf nc (baseNoise σ n dim.toNat) k j) ≠ 0) :
    sampleStd n
      (fun i => normalizeCols n
        (applySmooth gf nc (baseNoise σ n dim.toNat)) i j) = 1 ∧
    |sampleStd n (fun i => mkX σ gf tl n sep nc dim i j) - 1| ≤
      4 * |sep| / (dim : ℝ) := by
  have hdimR : (0 : ℝ) < (dim : ℝ) := by exact_mod_cast hdim
  have h1 : sampleStd n
      (fun i => normalizeCols n
        (applySmooth gf nc (baseNoise σ n dim.toNat)) i j) = 1 :=
    sampleStd_div_self n
      (fun k => applySmooth gf nc (baseNoise σ n dim.toNat) k j) hstd
  refine ⟨h1, ?_⟩
  have h2 := abs_sampleStd_add_sub_le n
    (fun i => sep * (if mkY tl σ i then 4 / (dim : ℝ)
      else -(4 / (dim : ℝ))))
    (fun i => normalizeCols n
      (applySmooth gf nc (baseNoise σ n dim.toNat)) i j)
  rw [h1] at h2
  have h4 : sampleStd n
      (fun i => sep * (if mkY tl σ i then 4 / (dim : ℝ)
        else -(4 / (dim : ℝ)))) ≤ |sep| * (4 / (dim : ℝ)) := by
    apply sampleStd_le_bound
    · positivity
    · intro i _
      rw [abs_mul]
      have habs : |if mkY tl σ i then 4 / (dim : ℝ)
          else -(4 / (dim : ℝ))| = 4 / (dim : ℝ) := by
        by_cases h : mkY tl σ i
        · rw [if_pos h, abs_of_pos (by positivity)]
        · rw [if_neg h, abs_neg, abs_of_pos (by positivity)]
      rw [habs]
  have h5 : |sampleStd n (fun i => mkX σ gf tl n sep nc dim i j) - 1| ≤
      sampleStd n (fun i => sep * (if mkY tl σ i then 4 / (dim : ℝ)
        else -(4 / (dim : ℝ)))) := h2
  calc |sampleStd n (fun i => mkX σ gf tl n sep nc dim i j) - 1| ≤
      sampleStd n (fun i => sep * (if mkY tl σ i then 4 / (dim : ℝ)
        else -(4 / (dim : ℝ)))) := h5
    _ ≤ |sep| * (4 / (dim : ℝ)) := h4
    _ = 4 * |sep| / (dim : ℝ) := by ring

/-- C7, witness: with `n = 2`, `dim = 1`, `sep = 0` and the stream whose
noise draws for column 0 are `0` and `2` (std `1`), the hypotheses hold
and the feature column's standard deviation is within `4 * |0| / 1` of
`1`. -/
theorem feature_columns_unit_std_witness :
    |sampleStd 2 (fun i => mkX (fun k => if k = 3 then (2 : ℝ) else 0)
      (fun _ m => m) (fun _ => false) 2 0 none 1 i 0) - 1| ≤
      4 * |(0 : ℝ)| / ((1 : ℤ) : ℝ) := by
  have hstd : sampleStd 2
      (fun k => applySmooth (fun _ m => m) none
        (baseNoise (fun k => if k = 3 then (2 : ℝ) else 0) 2
          (1 : ℤ).toNat) k 0) ≠ 0 := by
    have hv : (fun k => applySmooth (fun _ m => m) none
        (baseNoise (fun k => if k = 3 then (2 : ℝ) else 0) 2
          (1 : ℤ).toNat) k 0) =
        fun k => if 2 + k * 1 + 0 = 3 then (2 : ℝ) else 0 := rfl
    rw [hv]
    have hcalc : sampleStd 2
        (fun k => if 2 + k * 1 + 0 = 3 then (2 : ℝ) else 0) = 1 := by
      unfold sampleStd sampleVar colMean
      rw [Finset.sum_range_succ, Finset.sum_range_succ,
        Finset.sum_range_zero, Finset.sum_range_succ,
        Finset.sum_range_succ, Finset.sum_range_zero]
      norm_num
    rw [hcalc]
    norm_num
  exact (feature_columns_unit_std (fun k => if k = 3 then (2 : ℝ) else 0)
    (fun _ m => m) (fun _ => false) 2 0 none 1 0 (by norm_num) hstd).2

/-- Any defined value of `np.std` is a square root, hence nonnegative. -/
lemma nstd_nonneg (cv : List (Option ℝ)) (s : ℝ) (h : nstd cv = some s) :
    0 ≤ s := by
  unfold nstd at h
  cases hseq : seqOpt cv with
  | none =>
      rw [hseq] at h
      cases h
  | some l =>
      rw [hseq] at h
      dsimp only at h
      by_cases hl : l.length = 0
      · rw [if_pos hl] at h
        cases h
      · rw [if_neg hl] at h
        injection h with h
        rw [← h]
        exact Real.sqrt_nonneg _

/-- `score_sem` of any emitted row is NaN or nonnegative. -/
lemma scoreLine_sem_nonneg (name : String) (v : ℝ) (ts : ℕ) (dim : ℤ)
    (nc : Option ℝ) (sep : ℝ) (cv : List (Option ℝ)) :
    (scoreLine name v ts dim nc sep cv).score_sem = none ∨
      ∃ x, (scoreLine name v ts dim nc sep cv).score_sem = some x ∧
        0 ≤ x := by
  cases hn : nstd cv with
  | none =>
      left
      simp [scoreLine, hn]
  | some s =>
      right
      refine ⟨s / Real.sqrt (cv.length : ℝ), by simp [scoreLine, hn], ?_⟩
      exact div_nonneg (nstd_nonneg cv s hn) (Real.sqrt_nonneg _)

/-- C8: the standard-error field.  (1) For every emitted row,
`score_sem = np.std(cv_scores) / np.sqrt(len(cv_scores))` is NaN or
`≥ 0`; (2) when the fold-score count is `≤ 1` it is exactly `0` or NaN
— the division is total (`len = 0` already makes the std NaN, `len = 1`
makes it `0` with denominator `1`), never an error; (3) every row in a
successful output of `sample_and_cross_val_clf` satisfies (1). -/
theorem score_sem_policy :
    (∀ (name : String) (v : ℝ) (ts : ℕ) (dim : ℤ) (nc : Option ℝ)
        (sep : ℝ) (cv : List (Option ℝ)),
      (scoreLine name v ts dim nc sep cv).score_sem = none ∨
        ∃ x, (scoreLine name v ts dim nc sep cv).score_sem = some x ∧
          0 ≤ x) ∧
    (∀ (name : String) (v : ℝ) (ts : ℕ) (dim : ℤ) (nc : Option ℝ)
        (sep : ℝ) (cv : List (Option ℝ)), cv.length ≤ 1 →
      (scoreLine name v ts dim nc sep cv).score_sem = none ∨
        (scoreLine name v ts dim nc sep cv).score_sem = some 0) ∧
    (∀ (σ : ℕ → ℝ) (gf : ℝ → (ℕ → ℕ → ℝ) → ℕ → ℕ → ℝ) (tl : ℝ → Bool)
        (fitScore : List (ℕ → ℝ) → List Bool → List (ℕ → ℝ) →
          List Bool → Except Unit ℝ)
        (cvRun : String → List (ℕ → ℝ) → List Bool → (ℕ → ℕ) →
          Except Unit (List ℝ))
        (pooled : List (ℕ → ℝ) → List Bool → (ℕ → ℕ) → Except Unit ℝ)
        (ts : ℕ) (nc : Option ℝ) (dim : ℤ) (sep : ℝ)
        (rs : List TrialResult) (r : TrialResult),
      sample_and_cross_val_clf σ gf tl fitScore cvRun pooled ts nc dim
        sep = Except.ok rs → r ∈ rs →
      (r.score_sem = none ∨ ∃ x, r.score_sem = some x ∧ 0 ≤ x)) := by
  refine ⟨scoreLine_sem_nonneg, ?_, ?_⟩
  · intro name v ts dim nc sep cv h
    rcases cv with _ | ⟨o, rest⟩
    · left
      simp [scoreLine, nstd, seqOpt]
    rcases rest with _ | ⟨o2, rest2⟩
    · cases o with
      | none =>
          left
          simp [scoreLine, nstd, seqOpt]
      | some x =>
          right
          simp [scoreLine, nstd, seqOpt]
    · simp at h
  · intro σ gf tl fitScore cvRun pooled ts nc dim sep rs r hok hr
    unfold sample_and_cross_val_clf at hok
    cases hmk : (mk_data σ gf tl (ts + 10000) sep nc dim).1 with
    | error e =>
        rw [hmk] at hok
        cases hok
    | ok ds =>
        rw [hmk] at hok
        dsimp only at hok
        cases hfit : fitScore (trainX ts ds) (trainY ts ds) (testX ts ds)
            (testY ts ds) with
        | error e =>
            rw [hfit] at hok
            cases hok
        | ok v =>
            rw [hfit] at hok
            dsimp only at hok
            injection hok with hok
            rw [← hok] at hr
            simp only [List.mem_cons, List.mem_singleton,
              List.not_mem_nil, or_false] at hr
            rcases hr with hr | hr
            · rw [hr]
              exact scoreLine_sem_nonneg _ _ _ _ _ _ _
            · rw [hr]
              exact scoreLine_sem_nonneg _ _ _ _ _ _ _

/-- C8, witness: the count-`≤ 1` clause at the one-element defined score
list `[some 1]` (the shape the pooled fallback produces): the standard
error is exactly `0` or NaN. -/
theorem score_sem_policy_witness :
    (scoreLine "10 repeated 10-fold" 0 30 300 (some 0) 1
        [some 1]).score_sem = none ∨
      (scoreLine "10 repeated 10-fold" 0 30 300 (some 0) 1
        [some 1]).score_sem = some 0 :=
  score_sem_policy.2.1 "10 repeated 10-fold" 0 30 300 (some 0) 1 [some 1]
    (by norm_num)

end CVSim
